import Mathlib

/-!
# Verification of the Interactive Canvas DevTools extraction pipeline and bridge

This development shallowly embeds the SDK-directory extraction pipeline
(`src/webpage/process-sdk.ts`), the page-side history overrides
(`src/webpage/webpage-script.ts`), the `jsonRepair` utility
(`src/utils/json-repair.ts`) and the `ChromeBridgeService`
(`src/app/chrome-bridge.service.ts`) of the repository, and proves the
testable properties stated in the repository's specification against it.

Strings are modelled as Lean `String`s (lists of `Char`s); the JavaScript
regular expressions used by the source are each embedded as a deterministic
scanner that is provably equivalent to the (backtracking-free) regex it
models, as argued pattern by pattern in the doc comments below.
-/

/-! ## Character classes used by the source regexes -/

/-- JavaScript regex `\w`: ASCII letters, digits, and underscore. -/
def isWordChar (c : Char) : Bool :=
  c.isAlphanum || c = '_'

/-- The quote alternatives of `markRegexp`: the character class matching a
single or double quote. -/
def isQuoteChar (c : Char) : Bool :=
  c = '\x27' || c = '"'

/-- JavaScript regex `\s` (restricted to the ASCII whitespace characters
that can occur in the scanned sources). -/
def isSpaceChar (c : Char) : Bool :=
  c = ' ' || c = '\t' || c = '\n' || c = '\r' || c = '\x0b' || c = '\x0c'

/-! ## Generic scanning primitives -/

/-- Strips `p` from the front of `l`, returning the remainder, or `none`
if `p` is not a prefix of `l`. Models matching a literal part of a regex. -/
def stripPrefixChars : List Char → List Char → Option (List Char)
  | [], l => some l
  | _ :: _, [] => none
  | p :: ps, c :: cs => if c = p then stripPrefixChars ps cs else none

/-- Splits off the maximal prefix of characters satisfying `f`.
Models a greedy character-class repetition such as `\w+` when the
character after the run cannot itself satisfy `f`. -/
def takeRun (f : Char → Bool) : List Char → List Char × List Char
  | [] => ([], [])
  | c :: cs =>
    if f c then (c :: (takeRun f cs).1, (takeRun f cs).2)
    else ([], c :: cs)

/-- Finds the earliest occurrence of the two-character stop sequence
`s₁ s₂`, returning the characters before it and the characters after it.
Models a lazy repetition `[\w\W]*?` terminated by the literal `s₁ s₂`. -/
def findStop2 (s₁ s₂ : Char) : List Char → Option (List Char × List Char)
  | [] => none
  | [_] => none
  | a :: b :: rest =>
    if a = s₁ ∧ b = s₂ then some ([], rest)
    else (findStop2 s₁ s₂ (b :: rest)).map (fun p => (a :: p.1, p.2))

/-- Finds the earliest occurrence of the stop character `s`, returning the
characters before it and the characters after it. Models a lazy repetition
`[\w\W]*?` terminated by the literal `s`. -/
def findStop1 (s : Char) : List Char → Option (List Char × List Char)
  | [] => none
  | a :: rest =>
    if a = s then some ([], rest)
    else (findStop1 s rest).map (fun p => (a :: p.1, p.2))

/-- A single attempted regex match at the head of the input: on success,
returns the full matched text, the text of capture group 1, and the
remaining input after the match. -/
abbrev RegexTry := List Char → Option (List Char × List Char × List Char)

/-- All matches of a scanner, left to right and non-overlapping, as
performed by JavaScript `String.prototype.match` with a `/g` regex.
`fuel` bounds the scan; `input.length` is always enough fuel because each
step consumes at least one character. -/
def scanMatchesAux (t : RegexTry) : Nat → List Char → List (List Char)
  | 0, _ => []
  | _ + 1, [] => []
  | fuel + 1, c :: cs =>
    match t (c :: cs) with
    | some (full, _, rest) => full :: scanMatchesAux t fuel rest
    | none => scanMatchesAux t fuel cs

/-- The capture groups of all matches, left to right: models
`(s.match(re) || []).map(m => m.replace(re, '$1'))`, the idiom the source
uses to extract the capture group of each match (each element of the
match array is itself a full match, so replacing it by `$1` yields
exactly its capture group). -/
def scanCapturesAux (t : RegexTry) : Nat → List Char → List (List Char)
  | 0, _ => []
  | _ + 1, [] => []
  | fuel + 1, c :: cs =>
    match t (c :: cs) with
    | some (_, cap, rest) => cap :: scanCapturesAux t fuel rest
    | none => scanCapturesAux t fuel cs

/-- Global regex replacement by capture group 1: models
`s.replace(re, '$1')` for a `/g` regex. Non-matching characters are
copied through unchanged. -/
def scanReplaceAux (t : RegexTry) : Nat → List Char → List Char
  | 0, l => l
  | _ + 1, [] => []
  | fuel + 1, c :: cs =>
    match t (c :: cs) with
    | some (_, cap, rest) => cap ++ scanReplaceAux t fuel rest
    | none => c :: scanReplaceAux t fuel cs

/-- Whether the scanner matches anywhere in the input: models
`re.test(s)` evaluated with `lastIndex = 0`. -/
def scanExistsAux (t : RegexTry) : Nat → List Char → Bool
  | 0, _ => false
  | _ + 1, [] => false
  | fuel + 1, c :: cs =>
    match t (c :: cs) with
    | some _ => true
    | none => scanExistsAux t fuel cs

/-! ## The shared TTS-mark regex

`const markRegexp = new RegExp('<mark name=[\x27"](\\w+)[\x27"]', 'g')`
(process-sdk.ts line 104). The pattern is a literal `<mark name=`, one
quote character, a greedy `\w+` capture, and one quote character. Because
no quote character is a word character, the greedy repetition never needs
to backtrack: the match is the maximal word run followed by a quote. -/

/-- The literal part `<mark name=` of `markRegexp`. -/
def markLit : List Char := "<mark name=".data

/-- One attempted match of `markRegexp` at the head of the input. -/
def tryMark : RegexTry := fun l =>
  match stripPrefixChars markLit l with
  | none => none
  | some r1 =>
    match r1 with
    | [] => none
    | q :: r2 =>
      if isQuoteChar q then
        match takeRun isWordChar r2 with
        | ([], _) => none
        | (_ :: _, []) => none
        | (w :: ws, q2 :: r3) =>
          if isQuoteChar q2 then
            some (markLit ++ q :: ((w :: ws) ++ [q2]), w :: ws, r3)
          else none
      else none

/-- Mark extraction as performed by the source at every use site of
`markRegexp`:
`(text.match(markRegexp) || []).map(m => m.replace(markRegexp, '$1'))`. -/
def extractMarks (s : String) : List String :=
  (scanCapturesAux tryMark s.data.length s.data).map List.asString

/-! ## The webhook canvas-construction regexes

`canvasResponseRegex = new RegExp('new Canvas\\({([\\w\\W]+?)}\\)', 'gm')`
and `canvasDataRegex = new RegExp('data:\\s?({[\\w\\W]+?}),?', 'g')`
(process-sdk.ts lines 219-223). Both contain a lazy any-character
repetition, which matches the shortest non-empty text followed by the
stop literal (`})`, resp. `}`); the `m` flag only affects `^`/`$`, which
do not occur. -/

/-- The literal part `new Canvas({` of `canvasResponseRegex`. -/
def canvasLit : List Char := "new Canvas(\x7b".data

/-- One attempted match of `canvasResponseRegex` at the head of the input:
literal `new Canvas({`, then a lazy non-empty run up to the earliest
`})`. Capture group 1 is the run. -/
def tryCanvasResponse : RegexTry := fun l =>
  match stripPrefixChars canvasLit l with
  | none => none
  | some r =>
    match r with
    | [] => none
    | c0 :: r1 =>
      (findStop2 '\x7d' ')' r1).map fun p =>
        (canvasLit ++ (c0 :: p.1) ++ ['\x7d', ')'], c0 :: p.1, p.2)

/-- The literal part `data:` of `canvasDataRegex`. -/
def dataLit : List Char := "data:".data

/-- One attempted match of `canvasDataRegex` at the head of the input:
literal `data:`, at most one whitespace character, then a brace block
`{...}` whose interior is a lazy non-empty run up to the earliest `}`,
then an optional comma. Capture group 1 is the brace block including its
braces. -/
def tryCanvasData : RegexTry := fun l =>
  match stripPrefixChars dataLit l with
  | none => none
  | some r =>
    let afterWs : Option (List Char × List Char) :=
      match r with
      | c :: ('\x7b' :: r2) => if isSpaceChar c then some ([c], r2) else
          if c = '\x7b' then some ([], '\x7b' :: r2) else none
      | '\x7b' :: r2 => some ([], r2)
      | _ => none
    match afterWs with
    | none => none
    | some (ws, r2) =>
      match r2 with
      | [] => none
      | d0 :: r3 =>
        (findStop1 '\x7d' r3).map fun p =>
          let inner := d0 :: p.1
          let cap := '\x7b' :: inner ++ ['\x7d']
          match p.2 with
          | ',' :: r4 => (dataLit ++ ws ++ cap ++ [','], cap, r4)
          | r4 => (dataLit ++ ws ++ cap, cap, r4)

/-! ## JSON values

Canvas data entries found in the parsed YAML sources are arbitrary JSON
values, which the source immediately turns back into text with
`JSON.stringify`. Numeric literals are modelled as integers. -/

/-- A JSON value as produced by `jsyaml.load` for a canvas `data` entry. -/
inductive JsValue where
  | null
  | bool (b : Bool)
  | num (n : Int)
  | str (s : String)
  | arr (elems : List JsValue)
  | obj (fields : List (String × JsValue))

/-- String escaping as performed by `JSON.stringify` (quotes, backslashes
and the whitespace control characters that occur in the sources). -/
def escapeJsonChar (c : Char) : List Char :=
  if c = '"' then ['\\', '"']
  else if c = '\\' then ['\\', '\\']
  else if c = '\n' then ['\\', 'n']
  else if c = '\t' then ['\\', 't']
  else if c = '\r' then ['\\', 'r']
  else [c]

/-- Model of `JSON.stringify` on a string. -/
def escapeJson (s : String) : String :=
  List.asString ('"' :: s.data.flatMap escapeJsonChar ++ ['"'])

mutual

/-- Model of `JSON.stringify` of a JSON value (no indentation argument, as called
by the source). -/
def JsValue.stringify : JsValue → String
  | .null => "null"
  | .bool b => cond b "true" "false"
  | .num n => toString n
  | .str s => escapeJson s
  | .arr es => "[" ++ stringifyElems es ++ "]"
  | .obj fs => "\x7b" ++ stringifyFields fs ++ "\x7d"

/-- Comma-separated stringification of array elements. -/
def stringifyElems : List JsValue → String
  | [] => ""
  | [x] => x.stringify
  | x :: y :: xs => x.stringify ++ "," ++ stringifyElems (y :: xs)

/-- Comma-separated stringification of object fields. -/
def stringifyFields : List (String × JsValue) → String
  | [] => ""
  | [(k, v)] => escapeJson k ++ ":" ++ v.stringify
  | (k, v) :: f :: fs => escapeJson k ++ ":" ++ v.stringify ++ "," ++ stringifyFields (f :: fs)

end

/-! ## Parsed YAML document shapes

The source parses each YAML file with `jsyaml.load` and casts the result
to an Actions SDK proto type, then navigates a fixed schema path with
optional chaining. The embedding mirrors exactly the fields the source
touches; every field is optional, as in the protos. -/

/-- The `promptResponse.canvas` object with its `data` list of JSON payloads. -/
structure CanvasPrompt where
  data : Option (List JsValue)

/-- One `firstSimple.variants` element with its `speech` SSML string. -/
structure Variant where
  speech : Option String

/-- The `promptResponse.firstSimple` object. -/
structure FirstSimple where
  variants : Option (List Variant)

/-- The `candidate.promptResponse` object. -/
structure PromptResponse where
  canvas : Option CanvasPrompt
  firstSimple : Option FirstSimple

/-- One `staticPrompt.candidates` element. -/
structure Candidate where
  promptResponse : Option PromptResponse

/-- The `handler.staticPrompt` object. -/
structure StaticPrompt where
  candidates : Option (List Candidate)

/-- The `GlobalIntentEvent.handler` / `IntentEvent.handler` object. -/
structure Handler where
  staticPrompt : Option StaticPrompt

/-- The cast target of `jsyaml.load` for a `custom/global` file. -/
structure GlobalIntentEvent where
  handler : Option Handler

/-- One `Scene.intentEvents` element. -/
structure IntentEvent where
  handler : Option Handler

/-- The cast target of `jsyaml.load` for a `custom/scenes` file. -/
structure Scene where
  intentEvents : Option (List IntentEvent)

/-- The `Settings.localizedSettings` object. -/
structure LocalizedSettings where
  displayName : Option String
  smallLogoImage : Option String

/-- The cast target of `jsyaml.load` for `settings/settings.yaml`. -/
structure Settings where
  projectId : Option String
  localizedSettings : Option LocalizedSettings

/-! ## Structured-source extraction (process-sdk.ts lines 112-206) -/

/-- The aggregate of one extraction pass: ordered JSON payload strings
and ordered TTS mark names (`{data, marks}` in the source). -/
structure ExtractionResult where
  data : List String
  marks : List String
deriving DecidableEq

/-- Model of `intentEvent?.handler?.staticPrompt?.candidates || []` (and the same
chain on a `GlobalIntentEvent`). -/
def candidatesOfHandler (h : Option Handler) : List Candidate :=
  ((h.bind Handler.staticPrompt).bind StaticPrompt.candidates).getD []

/-- Model of `candidate?.promptResponse?.canvas?.data`. -/
def canvasDataOfCandidate (c : Candidate) : Option (List JsValue) :=
  ((c.promptResponse.bind PromptResponse.canvas).bind CanvasPrompt.data)

/-- Model of `candidate?.promptResponse?.firstSimple?.variants`. -/
def variantsOfCandidate (c : Candidate) : Option (List Variant) :=
  ((c.promptResponse.bind PromptResponse.firstSimple).bind FirstSimple.variants)

/-- Model of `variant.speech?.match(markRegexp) || []` followed by the per-match
`$1` replacement: the marks of one variant. -/
def marksOfVariant (v : Variant) : List String :=
  match v.speech with
  | some sp => extractMarks sp
  | none => []

/-- The canvas-data loop body shared by `processSdkGlobal` and
`processSdkCustom`: for each candidate, if `...canvas.data` is present,
push `JSON.stringify(datum)` for each datum. -/
def pushCanvasData (acc : ExtractionResult) (candidates : List Candidate) : ExtractionResult :=
  candidates.foldl
    (fun a c =>
      match canvasDataOfCandidate c with
      | some ds => { a with data := a.data ++ ds.map JsValue.stringify }
      | none => a)
    acc

/-- The TTS-mark loop body shared by `processSdkGlobal` and
`processSdkCustom`: for each candidate with variants, push every mark of
every variant. -/
def pushMarks (acc : ExtractionResult) (candidates : List Candidate) : ExtractionResult :=
  candidates.foldl
    (fun a c =>
      match variantsOfCandidate c with
      | some vs => { a with marks := a.marks ++ vs.flatMap marksOfVariant }
      | none => a)
    acc

/-- Per-file body of `processSdkGlobal` (lines 116-148): the canvas-data
loop over the candidates, then the mark loop over the candidates. -/
def processGlobalTree (acc : ExtractionResult) (tree : GlobalIntentEvent) : ExtractionResult :=
  pushMarks (pushCanvasData acc (candidatesOfHandler tree.handler))
    (candidatesOfHandler tree.handler)

/-- Per-file body of `processSdkCustom` (lines 166-200): for each
`intentEvents` element, the canvas-data loop then the mark loop over
that element's candidates. -/
def processSceneTree (acc : ExtractionResult) (tree : Scene) : ExtractionResult :=
  (tree.intentEvents.getD []).foldl
    (fun a ev =>
      pushMarks (pushCanvasData a (candidatesOfHandler ev.handler))
        (candidatesOfHandler ev.handler))
    acc

/-! ## The file-store model

`processSdk` receives a `FileSystemDirectoryHandle` from
`showDirectoryPicker` and traverses it through `getDirectoryHandle`,
`getFileHandle`, and `entries()`. The store is modelled as a finite tree;
a directory is its (ordered) entry list. A file carries its raw text and
the value `jsyaml.load` returns for that text, under the three typed
views the source casts it to (`jsyaml` is an external library, so its
output on each file is part of the environment). -/

/-- The three typed views of one `jsyaml.load` result. -/
structure YamlViews where
  asSettings : Settings
  asGlobal : GlobalIntentEvent
  asScene : Scene

/-- A parse result for files whose YAML views are never consulted. -/
def noYaml : YamlViews :=
  ⟨⟨none, none⟩, ⟨none⟩, ⟨none⟩⟩

/-- One file: its text content and its parse views. -/
structure FileData where
  text : String
  yaml : YamlViews

mutual
/-- A node of the hierarchical file store. -/
inductive FsNode where
  | file (fd : FileData)
  | dir (entries : List DirEntry)

/-- A named child of a directory. -/
inductive DirEntry where
  | mk (name : String) (node : FsNode)
end

/-- The name of a directory entry. -/
def DirEntry.name : DirEntry → String
  | .mk n _ => n

/-- The node of a directory entry. -/
def DirEntry.node : DirEntry → FsNode
  | .mk _ n => n

/-- A directory, identified with its entry list. -/
abbrev Dir := List DirEntry

/-- The failure conditions surfaced while traversing the store. -/
inductive SdkError where
  | notFound (name : String)
  | typeMismatch (name : String)
  | typeError (msg : String)
deriving DecidableEq

/-- Model of `dir.getDirectoryHandle(name)`: the first entry called `name`, which
must be a directory (`NotFoundError` / `TypeMismatchError` otherwise). -/
def getDirectoryHandle (d : Dir) (name : String) : Except SdkError Dir :=
  match (d.find? (fun e => e.name == name)).map DirEntry.node with
  | none => .error (.notFound name)
  | some (.file _) => .error (.typeMismatch name)
  | some (.dir es) => .ok es

/-- Model of `dir.getFileHandle(name)` followed by `.getFile()`: the first entry
called `name`, which must be a file. -/
def getFileHandle (d : Dir) (name : String) : Except SdkError FileData :=
  match (d.find? (fun e => e.name == name)).map DirEntry.node with
  | none => .error (.notFound name)
  | some (.dir _) => .error (.typeMismatch name)
  | some (.file fd) => .ok fd

/-! ## Directory iteration (process-sdk.ts lines 43-54)

`iterateDirectory` drives a callback over `dir.entries()`; every caller's
callback begins with `handler.getFile()`, which fails on a subdirectory
entry. Loading the files of a directory therefore yields the entries'
file data in enumeration order, or the first failure. -/

/-- The file data of every entry of a directory, in order; fails at the
first entry that is not a file (the callback's `handler.getFile()`
throws there). -/
def loadDirFiles : Dir → Except SdkError (List (String × FileData))
  | [] => .ok []
  | .mk _ (.dir _) :: _ => .error (.typeError "getFile on a directory")
  | .mk n (.file fd) :: rest => (loadDirFiles rest).map (fun l => (n, fd) :: l)

/-- Model of `processSdkGlobal` (lines 112-154): resolve `global` inside the
`custom` directory, then run the per-file body over every file,
accumulating into shared `data`/`marks` arrays. -/
def processSdkGlobal (customDir : Dir) : Except SdkError ExtractionResult := do
  let globalDir ← getDirectoryHandle customDir "global"
  let files ← loadDirFiles globalDir
  return files.foldl (fun acc f => processGlobalTree acc f.2.yaml.asGlobal) ⟨[], []⟩

/-- Model of `processSdkCustom` (lines 162-206): resolve `scenes` inside the
`custom` directory, then run the per-file scene body over every file. -/
def processSdkCustom (customDir : Dir) : Except SdkError ExtractionResult := do
  let scenesDir ← getDirectoryHandle customDir "scenes"
  let files ← loadDirFiles scenesDir
  return files.foldl (fun acc f => processSceneTree acc f.2.yaml.asScene) ⟨[], []⟩

/-! ## Webhook pattern-source extraction (process-sdk.ts lines 214-267)

The whole traversal sits in a `try { ... } catch (e) { /- Okay -/ }`
block while the `data`/`marks` accumulators live outside it, so any
error — a missing directory, a subdirectory entry, or the unchecked
`canvasResponses!.length` on a file with no `new Canvas({...})` match
(`String.match` returns `null` then) — abandons the rest of the
iteration but keeps everything accumulated so far.

`canvasDataRegex` is a `/g` regex used with `test` (stateful in
`lastIndex`) and then `replace`; `replace` on a global regex resets
`lastIndex` to 0 and a failed `test` also resets it to 0, so on every
path `lastIndex` is 0 again before the next `test`, and both uses behave
as if stateless. -/

/-- All matches of `canvasResponseRegex` in a text
(`sourceText.match(canvasResponseRegex)`, `null` modelled as `[]`). -/
def canvasResponseMatches (s : String) : List (List Char) :=
  scanMatchesAux tryCanvasResponse s.data.length s.data

/-- Model of `m.replace(canvasResponseRegex, '$1')`. -/
def replaceCanvasResponse (m : List Char) : List Char :=
  scanReplaceAux tryCanvasResponse m.length m

/-- Model of `canvasDataRegex.test(response)` (with `lastIndex` 0, see above). -/
def testCanvasData (response : List Char) : Bool :=
  scanExistsAux tryCanvasData response.length response

/-- Model of `response.replace(canvasDataRegex, '$1')`. -/
def replaceCanvasData (response : List Char) : List Char :=
  scanReplaceAux tryCanvasData response.length response

/-- JavaScript `name.endsWith(suffix)`. -/
def jsEndsWith (s suffix : String) : Bool :=
  suffix.data.isSuffixOf s.data

/-- The per-file loop of `processSdkWebhooks` (lines 230-257), threading
the shared accumulator. A file whose name ends in neither `js` nor `ts`
is skipped; a directory entry or a file with no canvas-construction match
aborts the iteration (exception swallowed by the surrounding `catch`),
returning the accumulator as already built. -/
def webhooksScan : List (String × FileData) → ExtractionResult → ExtractionResult
  | [], acc => acc
  | (name, fd) :: rest, acc =>
    if !jsEndsWith name "js" && !jsEndsWith name "ts" then webhooksScan rest acc
    else
      match canvasResponseMatches fd.text with
      | [] => acc
      | ms =>
        let payloads := ms.filterMap (fun m =>
          let response := replaceCanvasResponse m
          if testCanvasData response then some (List.asString (replaceCanvasData response))
          else none)
        let marks := extractMarks fd.text
        webhooksScan rest ⟨acc.data ++ payloads, acc.marks ++ marks⟩

/-- Entries of `webhooks/ActionsOnGoogleFulfillment` loaded as files; a
subdirectory entry truncates the listing (its `getFile()` would throw,
which the `catch` swallows mid-iteration). -/
def loadDirFilesCaught : Dir → List (String × FileData) × Bool
  | [] => ([], true)
  | .mk _ (.dir _) :: _ => ([], false)
  | .mk n (.file fd) :: rest =>
    let (l, ok) := loadDirFilesCaught rest
    ((n, fd) :: l, ok)

/-- The directory resolution step of `processSdkWebhooks` (lines
226-229): `webhooks` under the project root, then
`ActionsOnGoogleFulfillment` inside it. -/
def resolveFulfillmentDir (dirHandler : Dir) : Except SdkError Dir := do
  let webhooksDir ← getDirectoryHandle dirHandler "webhooks"
  getDirectoryHandle webhooksDir "ActionsOnGoogleFulfillment"

/-- Model of `processSdkWebhooks` (lines 214-267): resolve
`webhooks/ActionsOnGoogleFulfillment` and scan every `.js`/`.ts` file;
any failure is swallowed, yielding whatever was accumulated (empty for a
missing directory). -/
def processSdkWebhooks (dirHandler : Dir) : ExtractionResult :=
  match resolveFulfillmentDir dirHandler with
  | .error _ => ⟨[], []⟩
  | .ok fulfillmentDir => webhooksScan (loadDirFilesCaught fulfillmentDir).1 ⟨[], []⟩

/-! ## Header resolution (process-sdk.ts lines 85-99 and 289-300) -/

/-- Scan for the first occurrence of `pat`, substituting `repl` there. -/
def replaceFirstAux (pat repl : List Char) : Nat → List Char → List Char
  | 0, l => l
  | _ + 1, [] => []
  | fuel + 1, c :: cs =>
    match stripPrefixChars pat (c :: cs) with
    | some rest => repl ++ rest
    | none => c :: replaceFirstAux pat repl fuel cs

/-- JavaScript `s.replace(pattern, repl)` with a *string* pattern:
replaces the first occurrence only. -/
def replaceFirstOcc (s pat repl : String) : String :=
  List.asString (replaceFirstAux pat.data repl.data s.data.length s.data)

/-- The project logo file reference: strip the `$resources.images.`
prefix from `localizedSettings.smallLogoImage`, then resolve
`resources/images/<name>.png` under the project root (`getActionLogo`,
lines 85-99). Reading an absent `smallLogoImage` throws a `TypeError`
(the `!` assertions are erased at runtime). -/
def getActionLogo (dirHandler : Dir) (settingsObj : Settings) : Except SdkError FileData := do
  match settingsObj.localizedSettings with
  | none => .error (.typeError "localizedSettings")
  | some ls =>
    match ls.smallLogoImage with
    | none => .error (.typeError "smallLogoImage")
    | some sli =>
      let smallLogoImage := replaceFirstOcc sli "$resources.images." ""
      let resourcesDir ← getDirectoryHandle dirHandler "resources"
      let resImgDir ← getDirectoryHandle resourcesDir "images"
      getFileHandle resImgDir (smallLogoImage ++ ".png")

/-- Resolution and parse of `settings/settings.yaml` (lines 285-292). -/
def resolveSettingsFile (root : Dir) : Except SdkError FileData := do
  let settingsDir ← getDirectoryHandle root "settings"
  getFileHandle settingsDir "settings.yaml"

/-- The display metadata published on the window
(`interactiveCanvasHeader`, lines 293-300): `displayName` may be absent
without failing (its `!` is a type-level assertion on a plain read), but
an absent `localizedSettings` object throws. -/
structure ProjectHeader where
  title : Option String
  projectId : Option String
  logoFile : FileData

/-- The header stage of `processSdk` (lines 285-300): resolve and parse
the settings, read title and project id, and resolve the logo. -/
def resolveHeader (root : Dir) : Except SdkError ProjectHeader := do
  let settingsFd ← resolveSettingsFile root
  let settingsObj := settingsFd.yaml.asSettings
  match settingsObj.localizedSettings with
  | none => .error (.typeError "localizedSettings")
  | some ls =>
    let title := ls.displayName
    let projectId := settingsObj.projectId
    let logoFile ← getActionLogo root settingsObj
    return ⟨title, projectId, logoFile⟩

/-! ## The SDK processor (process-sdk.ts lines 275-328) -/

/-- One observable mutation performed by `processSdk`, in source order:
the initial `interactiveCanvasReady = false`, the header publication, the
three `push(...)` accumulations, `interactiveCanvasReady = true`, and the
final `InteractiveCanvas_ProcessSdk` dispatch. -/
inductive TraceEv where
  | setReadyFalse
  | setHeader (h : ProjectHeader)
  | accumGlobal (r : ExtractionResult)
  | accumScenes (r : ExtractionResult)
  | accumWebhooks (r : ExtractionResult)
  | setReadyTrue
  | dispatchProcessSdk (r : ExtractionResult) (ready : Bool)

/-- The constructor tag of a trace event, for order assertions. -/
inductive TraceTag where
  | setReadyFalse
  | setHeader
  | accumGlobal
  | accumScenes
  | accumWebhooks
  | setReadyTrue
  | dispatchProcessSdk
deriving DecidableEq

/-- The tag of a trace event. -/
def TraceEv.tag : TraceEv → TraceTag
  | .setReadyFalse => .setReadyFalse
  | .setHeader _ => .setHeader
  | .accumGlobal _ => .accumGlobal
  | .accumScenes _ => .accumScenes
  | .accumWebhooks _ => .accumWebhooks
  | .setReadyTrue => .setReadyTrue
  | .dispatchProcessSdk _ _ => .dispatchProcessSdk

/-- The window state `processSdk` mutates, plus the trace of its
observable mutations. -/
structure Platform where
  interactiveCanvasData : ExtractionResult
  interactiveCanvasReady : Bool
  interactiveCanvasHeader : Option ProjectHeader
  trace : List TraceEv

/-- Model of `platform.interactiveCanvasData.data.push(...data)` and
`...marks.push(...marks)` for one processing step (lines 304-314). -/
def pushResult (p : Platform) (r : ExtractionResult) (ev : ExtractionResult → TraceEv) : Platform :=
  { p with
    interactiveCanvasData :=
      ⟨p.interactiveCanvasData.data ++ r.data, p.interactiveCanvasData.marks ++ r.marks⟩
    trace := p.trace ++ [ev r] }

/-- Model of `processSdk` (lines 275-328): reset the shared data and the ready
flag, resolve header, run the three extraction steps, set the ready flag,
dispatch the completion event. A thrown error anywhere aborts the rest of
the traversal, leaving the mutations already performed in place. -/
def processSdk (root : Dir) (p0 : Platform) : Platform × Option SdkError :=
  let p1 : Platform :=
    { p0 with
      interactiveCanvasData := ⟨[], []⟩
      interactiveCanvasReady := false
      trace := p0.trace ++ [.setReadyFalse] }
  match resolveHeader root with
  | .error e => (p1, some e)
  | .ok header =>
    let p2 := { p1 with
      interactiveCanvasHeader := some header
      trace := p1.trace ++ [.setHeader header] }
    match getDirectoryHandle root "custom" with
    | .error e => (p2, some e)
    | .ok customDir =>
      match processSdkGlobal customDir with
      | .error e => (p2, some e)
      | .ok g =>
        let p3 := pushResult p2 g TraceEv.accumGlobal
        match processSdkCustom customDir with
        | .error e => (p3, some e)
        | .ok s =>
          let p4 := pushResult p3 s TraceEv.accumScenes
          let w := processSdkWebhooks root
          let p5 := pushResult p4 w TraceEv.accumWebhooks
          let p6 := { p5 with
            interactiveCanvasReady := true
            trace := p5.trace ++ [TraceEv.setReadyTrue] }
          let p7 := { p6 with
            trace := p6.trace ++ [TraceEv.dispatchProcessSdk p6.interactiveCanvasData true] }
          (p7, none)

/-! ## jsonRepair (src/utils/json-repair.ts)

A chain of global regex replacements over the raw string, in source
order, followed by `trim()`. Each pattern is either a literal or a
greedy `[\w.]+` run delimited by a character outside the class, so each
is again a deterministic scan. -/

/-- A literal global replacement `s.replace(/lit/g, repl)` expressed as a
scanner whose "capture" component is the replacement text. -/
def tryLit (pat repl : List Char) : RegexTry := fun l =>
  (stripPrefixChars pat l).map (fun r => (pat, repl, r))

/-- The character class `[\w.]` of json-repair's key pattern. -/
def isWordDotChar (c : Char) : Bool :=
  isWordChar c || c = '.'

/-- The pattern `/([\w.]+):/g` replaced by `'"$1":'`: quote an unquoted object key. -/
def tryKeyColon : RegexTry := fun l =>
  match takeRun isWordDotChar l with
  | ([], _) => none
  | (w :: ws, ':' :: rest) =>
    some ((w :: ws) ++ [':'], '"' :: ((w :: ws) ++ ['"', ':']), rest)
  | (_ :: _, _) => none

/-- The pattern `/'([\w.]+)'/g` replaced by `'"$1"'`: double-quote a single-quoted
word. -/
def trySingleQuoted : RegexTry := fun l =>
  match l with
  | '\x27' :: r1 =>
    match takeRun isWordDotChar r1 with
    | ([], _) => none
    | (w :: ws, '\x27' :: rest) =>
      some ('\x27' :: ((w :: ws) ++ ['\x27']), '"' :: ((w :: ws) ++ ['"']), rest)
    | (_ :: _, _) => none
  | _ => none

/-- The pattern `/\s\s/g` replaced by the empty string: delete pairs of whitespace. -/
def tryTwoSpaces : RegexTry := fun l =>
  match l with
  | a :: b :: rest =>
    if isSpaceChar a ∧ isSpaceChar b then some ([a, b], [], rest) else none
  | _ => none

/-- One global replacement pass over a string. -/
def jsReplace (t : RegexTry) (s : String) : String :=
  List.asString (scanReplaceAux t s.data.length s.data)

/-- Model of `trim()`: strip leading and trailing whitespace. -/
def trimString (s : String) : String :=
  List.asString (((s.data.dropWhile isSpaceChar).reverse.dropWhile isSpaceChar).reverse)

/-- Model of `jsonRepair` (json-repair.ts): the full replacement chain in source
order. -/
def jsonRepair (jsonlike : String) : String :=
  let s := jsReplace tryKeyColon jsonlike
  let s := jsReplace trySingleQuoted s
  let s := jsReplace (tryLit ['\n'] []) s
  let s := jsReplace tryTwoSpaces s
  let s := jsReplace (tryLit [',', ' ', '\x7d'] ['\x7d']) s
  let s := jsReplace (tryLit [',', '\x7d'] ['\x7d']) s
  let s := jsReplace (tryLit ['\x7b', ' ', '"'] ['\x7b', '"']) s
  let s := jsReplace (tryLit ['"', ' ', '\x7d'] ['"', '\x7d']) s
  trimString s

/-! ## The Chrome bridge service (src/app/chrome-bridge.service.ts)

The service holds two insertion-ordered string sets with companion RxJS
subjects (`[...set]` is published after every addition, in insertion
order, as JavaScript `Set` iterates), and sends messages to the page
either through `broadcastMessage` (local transport) or
`execOnRemoteTab` (remote transport). The model records every published
list, every broadcast and every remote evaluation. -/

/-- The payload of a `broadcastMessage` call. -/
inductive BData where
  | emptyObj
  | str (s : String)
  | parsedArr (raw : String)
deriving DecidableEq

/-- The bridge state: the transport decision, the two suggestion sets
with their published emissions, and the outbound effect logs. -/
structure BridgeState where
  isRemoteTarget : Bool
  payloadsSet : List String
  payloadPublished : List (List String)
  marksSet : List String
  marksPublished : List (List String)
  broadcasts : List (String × BData)
  remoteEvals : List String
  styles : List String
deriving DecidableEq

/-- JavaScript `Set.prototype.add`: appends iff not already present
(insertion order is preserved on iteration). -/
def setAdd (s : List String) (x : String) : List String :=
  if x ∈ s then s else s ++ [x]

/-- Model of `broadcastMessage(type, data)` (lines 498-526): queue the payload and
dispatch it as a page-level `message` event. -/
def broadcastMessage (s : BridgeState) (type : String) (data : BData) : BridgeState :=
  { s with broadcasts := s.broadcasts ++ [(type, data)] }

/-- Model of `sendOnUpdate(object)` (lines 554-568): add the raw JSON string to the
payload set, publish the set, then dispatch (remote: evaluated code
string; local: a `payload` broadcast carrying `[JSON.parse(object)]`). -/
def sendOnUpdate (s : BridgeState) (object : String) : BridgeState :=
  let s1 := { s with payloadsSet := setAdd s.payloadsSet object }
  let s2 := { s1 with payloadPublished := s1.payloadPublished ++ [s1.payloadsSet] }
  if s2.isRemoteTarget then
    { s2 with remoteEvals :=
        s2.remoteEvals ++ ["window.interactiveCanvas.g.G.onUpdate([" ++ object ++ "])"] }
  else broadcastMessage s2 "payload" (.parsedArr object)

/-- Model of `sendOnTtsMark(mark)` (lines 575-589): add the mark to the mark set,
publish the set, then dispatch. -/
def sendOnTtsMark (s : BridgeState) (mark : String) : BridgeState :=
  let s1 := { s with marksSet := setAdd s.marksSet mark }
  let s2 := { s1 with marksPublished := s1.marksPublished ++ [s1.marksSet] }
  if s2.isRemoteTarget then
    { s2 with remoteEvals :=
        s2.remoteEvals ++ ["window.interactiveCanvas.g.G.onTtsMark([" ++ mark ++ "])"] }
  else broadcastMessage s2 "TtsEndpointEvent" (.str mark)

/-- The header CSS block inserted by `injectHeaderDom` (the literal style
text is presentation-only and abbreviated here). -/
def headerCss : String := "ic-ext-banner ic-ext-icon ic-ext-title styles"

/-- Model of `injectHeaderDom` (lines 626-661): unavailable on remote targets
(throws before any effect); locally, insert the banner CSS and broadcast
`Ext-ShowHeader`. The returned pair is the state at return or at throw,
plus the thrown message if any. -/
def injectHeaderDom (s : BridgeState) : BridgeState × Option String :=
  if s.isRemoteTarget then (s, some "Function unavailable on remote targets")
  else
    let s1 := { s with styles := s.styles ++ [headerCss] }
    (broadcastMessage s1 "Ext-ShowHeader" .emptyObj, none)

/-- The page-side values `loadSdk` polls for and then reads
(`interactiveCanvasReady` / `interactiveCanvasData` on the inspected
window). -/
structure PageEnv where
  interactiveCanvasReady : Bool
  interactiveCanvasData : ExtractionResult

/-- Model of `loadSdk` (lines 677-713): unavailable on remote targets (throws
before any effect); locally, broadcast `Ext-ProcessSdk`, then poll the
page's ready flag on a fixed cadence and, once it is true, fold the
page's accumulated payloads (through `jsonRepair`) and marks into the
sets and publish both. The poll is modelled by its one completing
observation of the page environment; while the flag is still false no
further state change has happened yet. -/
def loadSdk (s : BridgeState) (page : PageEnv) : BridgeState × Option String :=
  if s.isRemoteTarget then (s, some "Function unavailable on remote targets")
  else
    let s1 := broadcastMessage s "Ext-ProcessSdk" .emptyObj
    if page.interactiveCanvasReady then
      let s2 := page.interactiveCanvasData.data.foldl
        (fun st p => { st with payloadsSet := setAdd st.payloadsSet (jsonRepair p) }) s1
      let s3 := { s2 with payloadPublished := s2.payloadPublished ++ [s2.payloadsSet] }
      let s4 := page.interactiveCanvasData.marks.foldl
        (fun st m => { st with marksSet := setAdd st.marksSet m }) s3
      let s5 := { s4 with marksPublished := s4.marksPublished ++ [s4.marksSet] }
      (s5, none)
    else (s1, none)

/-! ## Page-side history overrides (src/webpage/webpage-script.ts 191-230)

When the page has Interactive Canvas, `sendTextQuery` and
`setCanvasState` are overridden to append a `CanvasHistory` entry to a
local array and re-dispatch the whole array as an
`InteractiveCanvas_History` message event. The event payload crossing
the context boundary is a structured clone, so a consumer reversing its
copy (as the History tab does for presentation) cannot mutate the stored
array. -/

/-- The discriminator of a history entry (`type` in the source). The
specification's vocabulary calls `.text` a "text-query" and `.state` a
"state-update". -/
inductive CanvasHistoryType where
  | text
  | state
deriving DecidableEq

/-- One observed outbound call (`CanvasHistory` in src/types.ts). -/
structure CanvasHistory where
  label : String
  timestamp : Nat
  type : CanvasHistoryType
deriving DecidableEq

/-- The page-realm state: the stored history log and the log of
`InteractiveCanvas_History` dispatches (each a clone of the array at
dispatch time). -/
structure PageState where
  webhookHistory : List CanvasHistory
  historyDispatches : List (List CanvasHistory)
deriving DecidableEq

/-- The state installed by the override block: an empty history. -/
def initialPageState : PageState := ⟨[], []⟩

/-- The `sendTextQuery` override (lines 204-212): push a `text` entry
with the query as label, then dispatch the whole history. -/
def sendTextQuery (st : PageState) (text : String) (now : Nat) : PageState :=
  let h := st.webhookHistory ++ [⟨text, now, .text⟩]
  { webhookHistory := h, historyDispatches := st.historyDispatches ++ [h] }

/-- The `setCanvasState` override (lines 214-225): push a `state` entry
labelled `JSON.stringify(state)`, then dispatch the whole history. -/
def setCanvasState (st : PageState) (state : JsValue) (now : Nat) : PageState :=
  let h := st.webhookHistory ++ [⟨state.stringify, now, .state⟩]
  { webhookHistory := h, historyDispatches := st.historyDispatches ++ [h] }

/-- The History tab's presentation order (tab-history.component.ts line
63): the received emission reversed, most recent first. The reversal acts
on the tab's own clone of the log. -/
def displaySorted (history : List CanvasHistory) : List CanvasHistory :=
  history.reverse

/-! ## Declarative schema-path collectors

The specification describes structured-source extraction as walking the
fixed schema path
`handler.staticPrompt.candidates[*].promptResponse.canvas.data[*]` (for
scenes additionally nested under `intentEvents[*]`), in document order.
These collectors state that walk directly; the correctness claim relates
them to the imperative accumulation above. -/

/-- The canvas-data entries reachable from one candidate, in order. -/
def candidateData (c : Candidate) : List JsValue :=
  (canvasDataOfCandidate c).getD []

/-- The marks reachable from one candidate, in order. -/
def candidateMarks (c : Candidate) : List String :=
  ((variantsOfCandidate c).getD []).flatMap marksOfVariant

/-- The canvas-data entries of one parsed global-intent document. -/
def globalTreeData (t : GlobalIntentEvent) : List JsValue :=
  (candidatesOfHandler t.handler).flatMap candidateData

/-- The marks of one parsed global-intent document. -/
def globalTreeMarks (t : GlobalIntentEvent) : List String :=
  (candidatesOfHandler t.handler).flatMap candidateMarks

/-- The canvas-data entries of one parsed scene document, nested under
`intentEvents[*]`. -/
def sceneTreeData (t : Scene) : List JsValue :=
  (t.intentEvents.getD []).flatMap
    (fun ev => (candidatesOfHandler ev.handler).flatMap candidateData)

/-- The marks of one parsed scene document. -/
def sceneTreeMarks (t : Scene) : List String :=
  (t.intentEvents.getD []).flatMap
    (fun ev => (candidatesOfHandler ev.handler).flatMap candidateMarks)

/-- All canvas-data entries of a list of global documents, document
order. -/
def globalCanvasData (ts : List GlobalIntentEvent) : List JsValue :=
  ts.flatMap globalTreeData

/-- All canvas-data entries of a list of scene documents, document
order. -/
def sceneCanvasData (ts : List Scene) : List JsValue :=
  ts.flatMap sceneTreeData

/-- A directory consisting of the given files, in order. -/
def filesAsDir (files : List (String × FileData)) : Dir :=
  files.map (fun p => .mk p.1 (.file p.2))

/-! ## The sample SDK project (example/sdk)

The repository's end-to-end test (`process-sdk.test.ts`) runs
`processSdk` over the bundled `example/sdk` tree and asserts the header
`{title: "Snow Pal sample", projectId: "<PROJECT_ID>"}` with logo
`resources/images/redcircle.png`, and the marks
`["globalyaml", "globalyaml2", "sceneyaml", "code"]`.

Modelled from the spec: the example tree's YAML sources
(`settings/settings.yaml`, `custom/global/*`, `custom/scenes/*`) are not
part of the repository snapshot under verification, so their parsed
views are reconstructed from the specification's end-to-end scenario and
the test's assertions: a settings document carrying the project id,
display name and `$resources.images.redcircle` logo reference, one
global document whose speech carries the marks `globalyaml` and
`globalyaml2` in order, and one scene document whose speech carries
`sceneyaml`. The bundled webhook
(`example/sdk/webhooks/ActionsOnGoogleFulfillment/index.js`) is
represented by a condensed text preserving its extraction-relevant
shape: `conv.add(new Canvas({data: {...},}))` constructions and a single
`<mark name="code"/>` tag (the prose strings of the original are
abbreviated). -/

/-- The condensed webhook fulfillment source text. -/
def sampleIndexJs : String :=
  "conv.add(new Canvas(\x7b\n        data: \x7b\n          command: \"WIN_GAME\",\n          displayedWord: displayedWord\n        \x7d,\n      \x7d));\n      conv.add(\"<speak>Lets see if your guess is there... <mark name=\"code\"/> That spells the word!</speak>\");\n      conv.add(new Canvas(\x7b\n        data: \x7b\n          command: \"LOSE_GAME\",\n        \x7d,\n      \x7d));"

/-- Parse views of the sample global intent document. -/
def sampleGlobalYaml : YamlViews :=
  { noYaml with asGlobal :=
      ⟨some ⟨some ⟨some [⟨some ⟨none, some ⟨some
        [⟨some "<speak>Welcome to Snow Pal. <mark name=\"globalyaml\"/> Want to play? <mark name=\"globalyaml2\"/></speak>"⟩]⟩⟩⟩]⟩⟩⟩ }

/-- Parse views of the sample scene document. -/
def sampleSceneYaml : YamlViews :=
  { noYaml with asScene :=
      ⟨some [⟨some ⟨some ⟨some [⟨some ⟨none, some ⟨some
        [⟨some "<speak>Take a guess. <mark name=\"sceneyaml\"/> Done.</speak>"⟩]⟩⟩⟩]⟩⟩⟩]⟩ }

/-- Parse views of the sample settings document. -/
def sampleSettingsYaml : YamlViews :=
  { noYaml with asSettings :=
      ⟨some "<PROJECT_ID>", some ⟨some "Snow Pal sample", some "$resources.images.redcircle"⟩⟩ }

/-- The sample project root directory. -/
def sampleRoot : Dir :=
  [ .mk "settings" (.dir
      [.mk "settings.yaml" (.file ⟨"settings-yaml-source-text", sampleSettingsYaml⟩)])
  , .mk "custom" (.dir
      [ .mk "global" (.dir
          [.mk "actions.intent.MAIN.yaml" (.file ⟨"global-yaml-source-text", sampleGlobalYaml⟩)])
      , .mk "scenes" (.dir
          [.mk "Game.yaml" (.file ⟨"scene-yaml-source-text", sampleSceneYaml⟩)]) ])
  , .mk "resources" (.dir
      [.mk "images" (.dir [.mk "redcircle.png" (.file ⟨"redcircle-png-bytes", noYaml⟩)])])
  , .mk "webhooks" (.dir
      [.mk "ActionsOnGoogleFulfillment" (.dir
        [.mk "index.js" (.file ⟨sampleIndexJs, noYaml⟩)])]) ]

/-- A window whose interactive-canvas fields are still unset, as in the
test's mock. -/
def emptyPlatform : Platform := ⟨⟨[], []⟩, false, none, []⟩

/-! ## Supporting lemmas: the mark scanner -/

/-- Characterisation of literal stripping. -/
theorem stripPrefixChars_eq_some {p l r : List Char} :
    stripPrefixChars p l = some r ↔ l = p ++ r := by
  induction p generalizing l with
  | nil => simp [stripPrefixChars]
  | cons ph pt ih =>
    cases l with
    | nil => simp [stripPrefixChars]
    | cons c cs =>
      simp only [stripPrefixChars, List.cons_append, List.cons.injEq]
      by_cases h : c = ph
      · subst h
        simp [ih]
      · simp [h]

/-- A run split is a split of the input. -/
theorem takeRun_split (f : Char → Bool) (l : List Char) :
    l = (takeRun f l).1 ++ (takeRun f l).2 := by
  induction l with
  | nil => rfl
  | cons c cs ih =>
    by_cases h : f c <;> simp [takeRun, h]
    exact ih

/-- Every character of the run satisfies the class. -/
theorem takeRun_all (f : Char → Bool) (l : List Char) :
    (takeRun f l).1.all f = true := by
  induction l with
  | nil => rfl
  | cons c cs ih =>
    by_cases h : f c <;> simp only [takeRun, h, if_true, if_false, List.all_cons,
      Bool.and_eq_true] <;> simp [h, ih]

/-- Computation of a run when the split point is known. -/
theorem takeRun_of_all {f : Char → Bool} {w r : List Char}
    (hw : w.all f = true) (hr : ∀ c cs, r = c :: cs → f c = false) :
    takeRun f (w ++ r) = (w, r) := by
  induction w with
  | nil =>
    cases r with
    | nil => rfl
    | cons c cs => simp [takeRun, hr c cs rfl]
  | cons a w' ih =>
    have ha : f a = true := by simp at hw; exact hw.1
    have hw' : w'.all f = true := by simp at hw; simpa using hw.2
    simp [takeRun, ha, ih hw']

/-- No quote character is a word character. -/
theorem isQuoteChar_not_word {c : Char} (h : isQuoteChar c = true) :
    isWordChar c = false := by
  rcases (by simpa [isQuoteChar] using h : c = '\x27' ∨ c = '"') with h1 | h1 <;>
    subst h1 <;> decide

/-- The mark scanner succeeds on a well-formed tag, consuming exactly the
tag and capturing exactly the name. -/
theorem tryMark_tag (q q' : Char) (m rest : List Char)
    (hq : isQuoteChar q = true) (hq' : isQuoteChar q' = true)
    (hm : m ≠ []) (hmw : m.all isWordChar = true) :
    tryMark (markLit ++ q :: (m ++ q' :: rest))
      = some (markLit ++ q :: (m ++ [q']), m, rest) := by
  unfold tryMark
  rw [stripPrefixChars_eq_some.mpr rfl]
  have htw : takeRun isWordChar (m ++ q' :: rest) = (m, q' :: rest) :=
    takeRun_of_all hmw (by
      intro c cs hc
      have : c = q' := by
        have := hc
        simp at this
        exact this.1.symm
      subst this
      exact isQuoteChar_not_word hq')
  cases m with
  | nil => exact absurd rfl hm
  | cons m0 ms =>
    simp only [hq, if_true, List.cons_append] at htw ⊢
    rw [htw]
    simp [hq']

/-- Inversion of a successful mark-scanner step: the input decomposes
into the literal, an opening quote, a non-empty word-character name, a
closing quote, and the remainder. -/
theorem tryMark_inv {l full cap rest : List Char}
    (h : tryMark l = some (full, cap, rest)) :
    ∃ q q', isQuoteChar q = true ∧ isQuoteChar q' = true ∧ cap ≠ [] ∧
      cap.all isWordChar = true ∧ l = markLit ++ q :: (cap ++ q' :: rest) ∧
      full = markLit ++ q :: (cap ++ [q']) := by
  unfold tryMark at h
  split at h
  · exact absurd h (by simp)
  next r1 heq =>
    split at h
    · exact absurd h (by simp)
    next q r2 =>
      split at h
      case isFalse hq => exact absurd h (by simp)
      case isTrue hq =>
        split at h
        · exact absurd h (by simp)
        · exact absurd h (by simp)
        next w ws q2 r3 heqt =>
          split at h
          case isFalse hq2 => exact absurd h (by simp)
          case isTrue hq2 =>
            have hfull : full = markLit ++ q :: (w :: ws ++ [q2]) := by
              injection h with h1
              exact (congrArg Prod.fst h1).symm
            have hcap : cap = w :: ws := by
              injection h with h1
              exact (congrArg (fun p => p.2.1) h1).symm
            have hrest : rest = r3 := by
              injection h with h1
              exact (congrArg (fun p => p.2.2) h1).symm
            have hsplit : r2 = (w :: ws) ++ q2 :: r3 := by
              have := takeRun_split isWordChar r2
              rw [heqt] at this
              exact this
            have hall : (w :: ws).all isWordChar = true := by
              have := takeRun_all isWordChar r2
              rw [heqt] at this
              exact this
            refine ⟨q, q2, hq, hq2, ?_, ?_, ?_, ?_⟩
            · rw [hcap]; simp
            · rw [hcap]; exact hall
            · rw [stripPrefixChars_eq_some.mp heq, hsplit, hcap, hrest]
            · rw [hfull, hcap]

/-- A successful mark-scanner step begins with the tag literal. -/
theorem tryMark_startsWithLit {l : List Char} {x : List Char × List Char × List Char}
    (h : tryMark l = some x) : markLit <+: l := by
  unfold tryMark at h
  cases hs : stripPrefixChars markLit l with
  | none => rw [hs] at h; exact absurd h (by simp)
  | some r1 => exact ⟨r1, (stripPrefixChars_eq_some.mp hs).symm⟩

/-- A successful mark-scanner step consumes at least one character. -/
theorem tryMark_consumes {l : List Char} {x : List Char × List Char × List Char}
    (h : tryMark l = some x) : x.2.2.length < l.length := by
  obtain ⟨full, cap, rest⟩ := x
  obtain ⟨q, q', -, -, -, -, hl, -⟩ := tryMark_inv h
  rw [hl]
  simp [markLit]
  omega

/-- The scan of `markRegexp` over a character list with just enough fuel. -/
def scanCap (l : List Char) : List (List Char) :=
  scanCapturesAux tryMark l.length l

/-- A capture scan of the empty input is empty at any fuel. -/
theorem scanCapturesAux_nilInput (t : RegexTry) (n : Nat) :
    scanCapturesAux t n [] = [] := by
  cases n <;> rfl

/-- Fuel irrelevance: any fuel at least the input length computes the
same capture scan. -/
theorem scanCapturesAux_fuel (t : RegexTry)
    (hcons : ∀ l x, t l = some x → x.2.2.length < l.length) :
    ∀ (n m : Nat) (l : List Char), l.length ≤ n → l.length ≤ m →
      scanCapturesAux t n l = scanCapturesAux t m l := by
  intro n
  induction n with
  | zero =>
    intro m l hn _
    rw [List.length_eq_zero.mp (Nat.le_zero.mp hn)]
    rw [scanCapturesAux_nilInput, scanCapturesAux_nilInput]
  | succ n ih =>
    intro m l hn hm
    cases l with
    | nil => rw [scanCapturesAux_nilInput, scanCapturesAux_nilInput]
    | cons c cs =>
      cases m with
      | zero => exact absurd hm (by simp)
      | succ m' =>
        simp only [scanCapturesAux]
        cases ht : t (c :: cs) with
        | none =>
          exact ih m' cs (by simp at hn; omega) (by simp at hm; omega)
        | some x =>
          obtain ⟨full, cap, rest⟩ := x
          have hr := hcons _ _ ht
          simp only [List.length_cons] at hr hn hm
          exact congrArg (cap :: ·) (ih m' rest (by omega) (by omega))

/-- One scan step over a successful match. -/
theorem scanCap_match {l full cap rest : List Char}
    (h : tryMark l = some (full, cap, rest)) :
    scanCap l = cap :: scanCap rest := by
  obtain ⟨q, q', -, -, -, -, hl, -⟩ := tryMark_inv h
  obtain ⟨c, cs, hcc⟩ : ∃ c cs, l = c :: cs := by
    rw [hl]
    exact ⟨_, _, rfl⟩
  subst hcc
  show scanCapturesAux tryMark (cs.length + 1) (c :: cs) = _
  simp only [scanCapturesAux, h]
  have hr := tryMark_consumes h
  simp only [List.length_cons] at hr
  exact congrArg (cap :: ·)
    (scanCapturesAux_fuel tryMark (fun _ _ => tryMark_consumes) cs.length rest.length rest
      (by omega) le_rfl)

/-- One scan step over a failed match. -/
theorem scanCap_nomatch {c : Char} {cs : List Char} (h : tryMark (c :: cs) = none) :
    scanCap (c :: cs) = scanCap cs := by
  show scanCapturesAux tryMark (cs.length + 1) (c :: cs) = _
  simp only [scanCapturesAux, h]
  rfl

/-- Whether `p` occurs as a contiguous substring of the input. -/
def hasSublist (p : List Char) : List Char → Bool
  | [] => p.isEmpty
  | c :: cs => p.isPrefixOf (c :: cs) || hasSublist p cs

/-- The head decomposition of the tag literal. -/
theorem markLit_eq : markLit = '<' :: "mark name=".data := rfl

/-- Scanning skips over any text free of the tag literal, provided the
remainder is empty or begins a tag (starts with `<`): no match can start
inside the text nor straddle into the remainder, because every character
of the literal after its head differs from `<`. -/
theorem tryMark_none_of_clean (t rest : List Char)
    (hrest : rest = [] ∨ ∃ r', rest = '<' :: r')
    (ht : hasSublist markLit t = false) :
    scanCap (t ++ rest) = scanCap rest := by
  induction t with
  | nil => simp
  | cons c cs ih =>
    have ht' : markLit.isPrefixOf (c :: cs) = false ∧ hasSublist markLit cs = false := by
      have := ht
      simp only [hasSublist, Bool.or_eq_false_iff] at this
      exact this
    have hnone : tryMark (c :: (cs ++ rest)) = none := by
      cases hmatch : tryMark (c :: (cs ++ rest)) with
      | none => rfl
      | some x =>
        exfalso
        have hpre : markLit <+: (c :: cs) ++ rest := by
          rw [List.cons_append]
          exact tryMark_startsWithLit hmatch
        rcases List.prefix_or_prefix_of_prefix hpre ( List.prefix_append (c :: cs) rest)
          with hp | hp
        · exact absurd ( List.isPrefixOf_iff_prefix.mpr hp) (by simp [ht'.1])
        · obtain ⟨p', hp'⟩ := hp
          obtain ⟨u, hu⟩ := hpre
          have hpu : p' ++ u = rest := by
            rw [← hp', List.append_assoc] at hu
            exact List.append_cancel_left hu
          cases p' with
          | nil =>
            rw [List.append_nil] at hp'
            have : markLit <+: (c :: cs) := by
              rw [hp']
            exact absurd ( List.isPrefixOf_iff_prefix.mpr this) (by simp [ht'.1])
          | cons ph pt =>
            rcases hrest with h0 | ⟨r', hr⟩
            · rw [h0] at hpu
              exact absurd hpu (by simp)
            · rw [hr] at hpu
              have hph : ph = '<' := by
                have := hpu
                rw [List.cons_append] at this
                exact (List.cons.injEq _ _ _ _).mp this |>.1
              have hsuff : (ph :: pt) <:+ markLit := ⟨c :: cs, hp'⟩
              rw [markLit_eq] at hsuff
              rcases List.suffix_cons_iff.mp hsuff with heq | hsuff'
              · have hlen : (c :: cs).length + (ph :: pt).length = markLit.length := by
                  rw [← hp']
                  exact (List.length_append _ _).symm
                rw [heq, markLit_eq] at hlen
                simp only [List.length_cons] at hlen
                omega
              · have hmem : ph ∈ "mark name=".data := hsuff'.subset (by simp)
                rw [hph] at hmem
                exact absurd hmem (by decide)
    rw [List.cons_append, scanCap_nomatch hnone]
    exact ih ht'.2

/-- One SSML mark tag plus the text following it, as a building block for
the order-preservation statement. -/
structure MarkSeg where
  openQ : Char
  name : String
  closeQ : Char
  after : String

/-- The characters contributed by one tag-and-trailing-text segment. -/
def markSegChars (sg : MarkSeg) : List Char :=
  markLit ++ sg.openQ :: (sg.name.data ++ [sg.closeQ]) ++ sg.after.data

/-- The characters of a sequence of segments. -/
def ssmlChars : List MarkSeg → List Char
  | [] => []
  | sg :: rest => markSegChars sg ++ ssmlChars rest

/-- An SSML document: leading text, then tags with names in order,
separated by arbitrary mark-free text. -/
def ssmlString (t0 : String) (segs : List MarkSeg) : String :=
  List.asString (t0.data ++ ssmlChars segs)

/-- A segment whose quotes are quote characters, whose name is a
non-empty word, and whose trailing text contains no `<mark name=`
occurrence. -/
def wellFormedSeg (sg : MarkSeg) : Prop :=
  isQuoteChar sg.openQ = true ∧ isQuoteChar sg.closeQ = true ∧
    sg.name.data ≠ [] ∧ sg.name.data.all isWordChar = true ∧
    hasSublist markLit sg.after.data = false

/-- The scan of a well-formed tag sequence yields exactly the tag names
in order. -/
theorem scanCap_ssml (segs : List MarkSeg) (hs : ∀ sg ∈ segs, wellFormedSeg sg) :
    scanCap (ssmlChars segs) = segs.map (fun sg => sg.name.data) := by
  induction segs with
  | nil => rfl
  | cons sg rest ih =>
    obtain ⟨hq, hq', hne, hw, hafter⟩ := hs sg (by simp)
    have htag := tryMark_tag sg.openQ sg.closeQ sg.name.data
      (sg.after.data ++ ssmlChars rest) hq hq' hne hw
    have heq : ssmlChars (sg :: rest)
        = markLit ++ sg.openQ :: (sg.name.data ++ sg.closeQ :: (sg.after.data ++ ssmlChars rest)) := by
      simp [ssmlChars, markSegChars, List.append_assoc]
    have hstep : scanCap (ssmlChars (sg :: rest))
        = sg.name.data :: scanCap (sg.after.data ++ ssmlChars rest) := by
      rw [heq]
      exact scanCap_match htag
    have hskip : scanCap (sg.after.data ++ ssmlChars rest) = scanCap (ssmlChars rest) := by
      apply tryMark_none_of_clean
      · cases rest with
        | nil => left; rfl
        | cons sg2 r2 =>
          right
          refine ⟨"mark name=".data ++ (sg2.openQ :: (sg2.name.data ++ [sg2.closeQ])
            ++ sg2.after.data ++ ssmlChars r2), ?_⟩
          simp [ssmlChars, markSegChars, markLit_eq]
      · exact hafter
    rw [hstep, hskip, ih (fun s hs' => hs s (by simp [hs']))]
    rfl

/-- Round trip between a string and its character list. -/
theorem asString_data (s : String) : s.data.asString = s := rfl

/-- Every capture produced by a scan satisfies any property enjoyed by
all captures of the underlying scanner. -/
theorem mem_scanCapturesAux {P : List Char → Prop}
    (t : RegexTry) (hcap : ∀ l x, t l = some x → P x.2.1) :
    ∀ (fuel : Nat) (l : List Char) (m : List Char), m ∈ scanCapturesAux t fuel l → P m := by
  intro fuel
  induction fuel with
  | zero => intro l m hm; simp [scanCapturesAux] at hm
  | succ f ih =>
    intro l m hm
    cases l with
    | nil => simp [scanCapturesAux] at hm
    | cons c cs =>
      rw [scanCapturesAux] at hm
      cases ht : t (c :: cs) with
      | none =>
        rw [ht] at hm
        exact ih cs m hm
      | some x =>
        obtain ⟨full, cap, rest⟩ := x
        rw [ht] at hm
        rcases List.mem_cons.mp hm with rfl | hm'
        · exact hcap _ _ ht
        · exact ih rest m hm'

/-! ## Supporting lemmas: structured-source accumulation -/

/-- The canvas-data loop appends exactly the stringified schema-path
entries, in candidate order, and leaves the marks untouched. -/
theorem pushCanvasData_spec (cs : List Candidate) : ∀ acc : ExtractionResult,
    pushCanvasData acc cs
      = ⟨acc.data ++ (cs.flatMap candidateData).map JsValue.stringify, acc.marks⟩ := by
  induction cs with
  | nil => intro acc; simp [pushCanvasData]
  | cons c cs ih =>
    intro acc
    rw [show pushCanvasData acc (c :: cs) = pushCanvasData
      (match canvasDataOfCandidate c with
       | some ds => { acc with data := acc.data ++ ds.map JsValue.stringify }
       | none => acc) cs from rfl]
    rw [ih]
    cases hcd : canvasDataOfCandidate c with
    | some ds => simp [candidateData, hcd]
    | none => simp [candidateData, hcd]

/-- The mark loop appends exactly the variant marks, in candidate order,
and leaves the data untouched. -/
theorem pushMarks_spec (cs : List Candidate) : ∀ acc : ExtractionResult,
    pushMarks acc cs = ⟨acc.data, acc.marks ++ cs.flatMap candidateMarks⟩ := by
  induction cs with
  | nil => intro acc; simp [pushMarks]
  | cons c cs ih =>
    intro acc
    rw [show pushMarks acc (c :: cs) = pushMarks
      (match variantsOfCandidate c with
       | some vs => { acc with marks := acc.marks ++ vs.flatMap marksOfVariant }
       | none => acc) cs from rfl]
    rw [ih]
    cases hv : variantsOfCandidate c with
    | some vs => simp [candidateMarks, hv]
    | none => simp [candidateMarks, hv]

/-- One global document contributes its schema-path entries in order. -/
theorem processGlobalTree_spec (acc : ExtractionResult) (t : GlobalIntentEvent) :
    processGlobalTree acc t
      = ⟨acc.data ++ (globalTreeData t).map JsValue.stringify,
         acc.marks ++ globalTreeMarks t⟩ := by
  unfold processGlobalTree globalTreeData globalTreeMarks
  rw [pushCanvasData_spec, pushMarks_spec]

/-- One scene document contributes its schema-path entries, nested under
`intentEvents[*]`, in order. -/
theorem processSceneTree_spec (acc : ExtractionResult) (t : Scene) :
    processSceneTree acc t
      = ⟨acc.data ++ (sceneTreeData t).map JsValue.stringify,
         acc.marks ++ sceneTreeMarks t⟩ := by
  unfold processSceneTree sceneTreeData sceneTreeMarks
  generalize t.intentEvents.getD [] = evs
  induction evs generalizing acc with
  | nil => simp
  | cons ev evs ih =>
    rw [List.foldl_cons, ih, pushCanvasData_spec, pushMarks_spec]
    simp

/-- Folding the per-file global body accumulates all documents in order. -/
theorem foldl_processGlobalTree (ts : List GlobalIntentEvent) : ∀ acc : ExtractionResult,
    ts.foldl processGlobalTree acc
      = ⟨acc.data ++ (globalCanvasData ts).map JsValue.stringify,
         acc.marks ++ ts.flatMap globalTreeMarks⟩ := by
  induction ts with
  | nil => intro acc; simp [globalCanvasData]
  | cons t ts ih =>
    intro acc
    rw [List.foldl_cons, ih, processGlobalTree_spec]
    simp [globalCanvasData]

/-- Folding the per-file scene body accumulates all documents in order. -/
theorem foldl_processSceneTree (ts : List Scene) : ∀ acc : ExtractionResult,
    ts.foldl processSceneTree acc
      = ⟨acc.data ++ (sceneCanvasData ts).map JsValue.stringify,
         acc.marks ++ ts.flatMap sceneTreeMarks⟩ := by
  induction ts with
  | nil => intro acc; simp [sceneCanvasData]
  | cons t ts ih =>
    intro acc
    rw [List.foldl_cons, ih, processSceneTree_spec]
    simp [sceneCanvasData]

/-- Loading an all-file directory succeeds with the files in order. -/
theorem loadDirFiles_filesAsDir (files : List (String × FileData)) :
    loadDirFiles (filesAsDir files) = .ok files := by
  induction files with
  | nil => rfl
  | cons f fs ih =>
    show (loadDirFiles (filesAsDir fs)).map (fun l => (f.1, f.2) :: l) = .ok (f :: fs)
    rw [ih]
    rfl

/-! ## Supporting lemmas: the bridge sets -/

/-- An added element is a member. -/
theorem setAdd_mem (s : List String) (x : String) : x ∈ setAdd s x := by
  by_cases h : x ∈ s <;> simp [setAdd, h]

/-- Adding twice is adding once. -/
theorem setAdd_idem (s : List String) (x : String) : setAdd (setAdd s x) x = setAdd s x := by
  have h := setAdd_mem s x
  rw [show setAdd (setAdd s x) x
      = if x ∈ setAdd s x then setAdd s x else setAdd s x ++ [x] from rfl, if_pos h]

/-- Adding preserves freedom from duplicates. -/
theorem setAdd_nodup (s : List String) (x : String) (h : s.Nodup) : (setAdd s x).Nodup := by
  by_cases hx : x ∈ s <;> simp [setAdd, hx, h, List.nodup_append]

/-- The payload set after a send. -/
theorem sendOnUpdate_payloadsSet (s : BridgeState) (x : String) :
    (sendOnUpdate s x).payloadsSet = setAdd s.payloadsSet x := by
  by_cases h : s.isRemoteTarget <;> simp [sendOnUpdate, broadcastMessage, h]

/-- The payload emissions after a send. -/
theorem sendOnUpdate_payloadPublished (s : BridgeState) (x : String) :
    (sendOnUpdate s x).payloadPublished = s.payloadPublished ++ [setAdd s.payloadsSet x] := by
  by_cases h : s.isRemoteTarget <;> simp [sendOnUpdate, broadcastMessage, h]

/-- The mark set after a send. -/
theorem sendOnTtsMark_marksSet (s : BridgeState) (x : String) :
    (sendOnTtsMark s x).marksSet = setAdd s.marksSet x := by
  by_cases h : s.isRemoteTarget <;> simp [sendOnTtsMark, broadcastMessage, h]

/-- The mark emissions after a send. -/
theorem sendOnTtsMark_marksPublished (s : BridgeState) (x : String) :
    (sendOnTtsMark s x).marksPublished = s.marksPublished ++ [setAdd s.marksSet x] := by
  by_cases h : s.isRemoteTarget <;> simp [sendOnTtsMark, broadcastMessage, h]

/-! ## The claims -/

/-- C1: for every valid structured-source document set, the
structured-source strategy returns exactly the stringified JSON entries
found under
`handler.staticPrompt.candidates[*].promptResponse.canvas.data[*]` (for
scenes additionally nested under `intentEvents[*]`), one per entry, in
document order: the data sequence equals the order-preserving map of
`JSON.stringify` over the declarative schema-path walk, so it has
exactly N elements for N entries. -/
theorem structured_source_data_order (customDir : Dir)
    (gfiles sfiles : List (String × FileData))
    (hg : getDirectoryHandle customDir "global" = .ok (filesAsDir gfiles))
    (hsc : getDirectoryHandle customDir "scenes" = .ok (filesAsDir sfiles)) :
    (processSdkGlobal customDir).map ExtractionResult.data
      = .ok ((globalCanvasData (gfiles.map (fun f => f.2.yaml.asGlobal))).map JsValue.stringify)
    ∧ (processSdkCustom customDir).map ExtractionResult.data
      = .ok ((sceneCanvasData (sfiles.map (fun f => f.2.yaml.asScene))).map JsValue.stringify) := by
  constructor
  · unfold processSdkGlobal
    rw [hg]
    show ((loadDirFiles (filesAsDir gfiles)).bind fun files =>
      Except.ok (files.foldl (fun acc f => processGlobalTree acc f.2.yaml.asGlobal)
        ⟨[], []⟩)).map ExtractionResult.data = _
    rw [loadDirFiles_filesAsDir]
    show Except.ok ((gfiles.foldl (fun acc f => processGlobalTree acc f.2.yaml.asGlobal)
      ⟨[], []⟩).data) = _
    rw [show gfiles.foldl (fun acc f => processGlobalTree acc f.2.yaml.asGlobal)
        (⟨[], []⟩ : ExtractionResult)
      = (gfiles.map (fun f => f.2.yaml.asGlobal)).foldl processGlobalTree ⟨[], []⟩ from
      (List.foldl_map _ _ _ _).symm]
    rw [foldl_processGlobalTree]
    simp
  · unfold processSdkCustom
    rw [hsc]
    show ((loadDirFiles (filesAsDir sfiles)).bind fun files =>
      Except.ok (files.foldl (fun acc f => processSceneTree acc f.2.yaml.asScene)
        ⟨[], []⟩)).map ExtractionResult.data = _
    rw [loadDirFiles_filesAsDir]
    show Except.ok ((sfiles.foldl (fun acc f => processSceneTree acc f.2.yaml.asScene)
      ⟨[], []⟩).data) = _
    rw [show sfiles.foldl (fun acc f => processSceneTree acc f.2.yaml.asScene)
        (⟨[], []⟩ : ExtractionResult)
      = (sfiles.map (fun f => f.2.yaml.asScene)).foldl processSceneTree ⟨[], []⟩ from
      (List.foldl_map _ _ _ _).symm]
    rw [foldl_processSceneTree]
    simp

/-- A concrete global document with two canvas-data entries, for the C1
witness. -/
def witnessGlobalDoc : GlobalIntentEvent :=
  ⟨some ⟨some ⟨some [⟨some ⟨some ⟨some [.str "one", .num 2]⟩, none⟩⟩]⟩⟩⟩

/-- A concrete scene document with one canvas-data entry, for the C1
witness. -/
def witnessSceneDoc : Scene :=
  ⟨some [⟨some ⟨some ⟨some [⟨some ⟨some ⟨some [.bool true]⟩, none⟩⟩]⟩⟩⟩]⟩

/-- The global file list of the C1 witness. -/
def witnessGlobalFiles : List (String × FileData) :=
  [("a.yaml", ⟨"t", { noYaml with asGlobal := witnessGlobalDoc }⟩)]

/-- The scene file list of the C1 witness. -/
def witnessSceneFiles : List (String × FileData) :=
  [("b.yaml", ⟨"t", { noYaml with asScene := witnessSceneDoc }⟩)]

/-- The custom directory of the C1 witness. -/
def witnessCustomDir : Dir :=
  [DirEntry.mk "global" (.dir (filesAsDir witnessGlobalFiles)),
   DirEntry.mk "scenes" (.dir (filesAsDir witnessSceneFiles))]

/-- Witness for C1 at a concrete custom directory: one global file with
two canvas-data entries and one scene file with one entry, extracted in
order. -/
theorem structured_source_data_order_witness :
    getDirectoryHandle witnessCustomDir "global" = .ok (filesAsDir witnessGlobalFiles)
    ∧ getDirectoryHandle witnessCustomDir "scenes" = .ok (filesAsDir witnessSceneFiles)
    ∧ (processSdkGlobal witnessCustomDir).map ExtractionResult.data
      = .ok ((globalCanvasData [witnessGlobalDoc]).map JsValue.stringify)
    ∧ (processSdkCustom witnessCustomDir).map ExtractionResult.data
      = .ok ((sceneCanvasData [witnessSceneDoc]).map JsValue.stringify) := by
  refine ⟨by rfl, by rfl, ?_, ?_⟩
  · exact (structured_source_data_order witnessCustomDir witnessGlobalFiles witnessSceneFiles
      (by rfl) (by rfl)).1
  · exact (structured_source_data_order witnessCustomDir witnessGlobalFiles witnessSceneFiles
      (by rfl) (by rfl)).2

/-- C2: mark extraction returns the mark names in document order — for
any SSML text built from mark-free fillers and mark tags named
`m1, ..., mk` in order (with either quoting style), the shared
`markRegexp` scan yields `[m1, ..., mk]`; with zero tags it yields the
empty sequence (the case `segs = []`); and every captured name is a
non-empty string of word characters only. -/
theorem mark_extraction_order :
    (∀ (t0 : String) (segs : List MarkSeg),
      hasSublist markLit t0.data = false →
      (∀ sg ∈ segs, wellFormedSeg sg) →
      extractMarks (ssmlString t0 segs) = segs.map MarkSeg.name)
    ∧ (∀ (s m : String), m ∈ extractMarks s →
        m.data ≠ [] ∧ m.data.all isWordChar = true) := by
  constructor
  · intro t0 segs h0 hs
    show (scanCapturesAux tryMark (ssmlString t0 segs).data.length
        (ssmlString t0 segs).data).map List.asString = _
    rw [show (scanCapturesAux tryMark (ssmlString t0 segs).data.length
        (ssmlString t0 segs).data) = scanCap (t0.data ++ ssmlChars segs) from rfl]
    rw [tryMark_none_of_clean t0.data (ssmlChars segs) ?hd h0, scanCap_ssml segs hs]
    · rw [List.map_map]
      rfl
    case hd =>
      cases segs with
      | nil => left; rfl
      | cons sg2 r2 =>
        right
        refine ⟨"mark name=".data ++ (sg2.openQ :: (sg2.name.data ++ [sg2.closeQ])
          ++ sg2.after.data ++ ssmlChars r2), ?_⟩
        simp [ssmlChars, markSegChars, markLit_eq]
  · intro s m hm
    obtain ⟨caps, hcaps, rfl⟩ := List.mem_map.mp hm
    have := mem_scanCapturesAux tryMark
      (P := fun capl => capl ≠ [] ∧ capl.all isWordChar = true)
      (fun l x hx => by
        obtain ⟨full, cap, rest⟩ := x
        obtain ⟨q, q', -, -, hne, hall, -, -⟩ := tryMark_inv hx
        exact ⟨hne, hall⟩)
      s.data.length s.data caps hcaps
    simpa using this

/-- Witness for C2: a concrete SSML string with a double-quoted mark
`m1` and a single-quoted mark `m2` around other markup yields
`["m1", "m2"]`, and a string with zero mark tags yields `[]`. -/
theorem mark_extraction_order_witness :
    hasSublist markLit "<speak>Hello ".data = false
    ∧ (∀ sg ∈ [MarkSeg.mk '"' "m1" '"' " mid ",
        MarkSeg.mk (Char.ofNat 39) "m2" (Char.ofNat 39) "</speak>"], wellFormedSeg sg)
    ∧ extractMarks (ssmlString "<speak>Hello "
        [MarkSeg.mk '"' "m1" '"' " mid ",
         MarkSeg.mk (Char.ofNat 39) "m2" (Char.ofNat 39) "</speak>"])
      = ["m1", "m2"]
    ∧ extractMarks (ssmlString "<speak>no marks at all</speak>" []) = [] := by
  refine ⟨by decide, ?_, ?_, ?_⟩
  · intro sg hsg
    simp only [List.mem_cons, List.mem_singleton] at hsg
    rcases hsg with rfl | rfl | h
    · exact ⟨by decide, by decide, by decide, by decide, by decide⟩
    · exact ⟨by decide, by decide, by decide, by decide, by decide⟩
    · exact absurd h (List.not_mem_nil _)
  · exact mark_extraction_order.1 "<speak>Hello "
      [MarkSeg.mk '"' "m1" '"' " mid ",
       MarkSeg.mk (Char.ofNat 39) "m2" (Char.ofNat 39) "</speak>"]
      (by decide)
      (by
        intro sg hsg
        simp only [List.mem_cons, List.mem_singleton] at hsg
        rcases hsg with rfl | rfl | h
        · exact ⟨by decide, by decide, by decide, by decide, by decide⟩
        · exact ⟨by decide, by decide, by decide, by decide, by decide⟩
        · exact absurd h (List.not_mem_nil _))
  · exact mark_extraction_order.1 "<speak>no marks at all</speak>" [] (by decide)
      (by intro sg hsg; exact absurd hsg (List.not_mem_nil _))

/-- C3: when the canvas-construction pattern `new Canvas({...})` is
absent or unbalanced so that it does not match in a scanned `.js`/`.ts`
file, the pattern-source strategy returns an empty payload (and mark)
sequence rather than failing: `String.match` returns `null`, the
unchecked `canvasResponses!.length` throws, and the surrounding `catch`
swallows the error, leaving the empty accumulator as the result. -/
theorem webhook_pattern_absent_empty (root : Dir) (name : String) (fd : FileData)
    (hf : resolveFulfillmentDir root = .ok [DirEntry.mk name (.file fd)])
    (hjs : jsEndsWith name "js" = true ∨ jsEndsWith name "ts" = true)
    (hm : canvasResponseMatches fd.text = []) :
    processSdkWebhooks root = ⟨[], []⟩ := by
  unfold processSdkWebhooks
  rw [hf]
  show webhooksScan [(name, fd)] ⟨[], []⟩ = ⟨[], []⟩
  unfold webhooksScan
  rcases hjs with h | h <;> simp [h, hm]

/-- Witness for C3: a fulfillment directory holding one `.js` file with
unbalanced canvas construction text yields the empty result. -/
theorem webhook_pattern_absent_empty_witness :
    resolveFulfillmentDir
        [DirEntry.mk "webhooks" (.dir [DirEntry.mk "ActionsOnGoogleFulfillment"
          (.dir [DirEntry.mk "index.js" (.file ⟨"conv.add(new Canvas(\x7b data: 1", noYaml⟩)])])]
      = .ok [DirEntry.mk "index.js" (.file ⟨"conv.add(new Canvas(\x7b data: 1", noYaml⟩)]
    ∧ jsEndsWith "index.js" "js" = true
    ∧ canvasResponseMatches "conv.add(new Canvas(\x7b data: 1" = []
    ∧ processSdkWebhooks
        [DirEntry.mk "webhooks" (.dir [DirEntry.mk "ActionsOnGoogleFulfillment"
          (.dir [DirEntry.mk "index.js" (.file ⟨"conv.add(new Canvas(\x7b data: 1", noYaml⟩)])])]
      = ⟨[], []⟩ := by
  refine ⟨by rfl, by decide, by decide, ?_⟩
  exact webhook_pattern_absent_empty _ "index.js" _ (by rfl) (Or.inl (by decide)) (by decide)

/-- C4: when `settings/settings.yaml` cannot be resolved, the whole SDK
traversal fails: the returned platform carries the error, keeps its
previous header (none is published), carries the freshly reset empty
extraction result, and its ready flag is false — the only trace event is
the initial `interactiveCanvasReady = false` write, so the flag is never
set to true. -/
theorem settings_missing_fatal (root : Dir) (p0 : Platform) (e : SdkError)
    (h : resolveSettingsFile root = .error e) :
    processSdk root p0 =
      (Platform.mk ⟨[], []⟩ false p0.interactiveCanvasHeader
        (p0.trace ++ [TraceEv.setReadyFalse]), some e) := by
  have hh : resolveHeader root = .error e := by
    unfold resolveHeader
    rw [h]
    rfl
  simp [processSdk, hh]

/-- Witness for C4: an empty project root fails with a missing
`settings` directory and the platform stays unready with no header. -/
theorem settings_missing_fatal_witness :
    resolveSettingsFile [] = .error (.notFound "settings")
    ∧ processSdk [] emptyPlatform
      = (Platform.mk ⟨[], []⟩ false none [TraceEv.setReadyFalse], some (.notFound "settings")) := by
  refine ⟨by rfl, ?_⟩
  exact settings_missing_fatal [] emptyPlatform (.notFound "settings") (by rfl)

/-- C5: a project root without a `webhooks` subdirectory (or without
`webhooks/ActionsOnGoogleFulfillment`) still processes successfully:
the webhook step contributes an empty data and mark sequence, and the
aggregate result is exactly the global and scene contributions, with the
ready flag set. -/
theorem webhooks_missing_nonfatal (root customDir : Dir) (p0 : Platform)
    (hdr : ProjectHeader) (g s : ExtractionResult) (e : SdkError)
    (hh : resolveHeader root = .ok hdr)
    (hc : getDirectoryHandle root "custom" = .ok customDir)
    (hg : processSdkGlobal customDir = .ok g)
    (hs : processSdkCustom customDir = .ok s)
    (hw : resolveFulfillmentDir root = .error e) :
    processSdkWebhooks root = ⟨[], []⟩
    ∧ (processSdk root p0).2 = none
    ∧ (processSdk root p0).1.interactiveCanvasData = ⟨g.data ++ s.data, g.marks ++ s.marks⟩
    ∧ (processSdk root p0).1.interactiveCanvasReady = true := by
  have hweb : processSdkWebhooks root = ⟨[], []⟩ := by simp [processSdkWebhooks, hw]
  refine ⟨hweb, ?_, ?_, ?_⟩ <;>
    simp [processSdk, hh, hc, hg, hs, hweb, pushResult]

/-- The parse views of the settings file shared by the C5 and C6
witnesses. -/
def witnessSettingsViews : YamlViews :=
  { noYaml with asSettings :=
      ⟨some "P1", some ⟨some "T1", some "$resources.images.logo"⟩⟩ }

/-- The settings file of the C5 and C6 witnesses. -/
def witnessSettingsFile : FileData := ⟨"settings-source", witnessSettingsViews⟩

/-- The logo image file of the C5 and C6 witnesses. -/
def witnessLogoFile : FileData := ⟨"logo-png-bytes", noYaml⟩

/-- The custom directory of the C5 and C6 witnesses (empty `global` and
`scenes` directories). -/
def witnessEmptyCustom : Dir :=
  [DirEntry.mk "global" (.dir []), DirEntry.mk "scenes" (.dir [])]

/-- A well-formed project root with no `webhooks` directory, shared by
the C5 and C6 witnesses. -/
def witnessProjectRoot : Dir :=
  [DirEntry.mk "settings" (.dir [DirEntry.mk "settings.yaml" (.file witnessSettingsFile)]),
   DirEntry.mk "custom" (.dir witnessEmptyCustom),
   DirEntry.mk "resources" (.dir
     [DirEntry.mk "images" (.dir [DirEntry.mk "logo.png" (.file witnessLogoFile)])])]

/-- Witness for C5: the webhook-less project root processes successfully
with an empty webhook contribution. -/
theorem webhooks_missing_nonfatal_witness :
    resolveHeader witnessProjectRoot = .ok ⟨some "T1", some "P1", witnessLogoFile⟩
    ∧ resolveFulfillmentDir witnessProjectRoot = .error (.notFound "webhooks")
    ∧ processSdkWebhooks witnessProjectRoot = ⟨[], []⟩
    ∧ (processSdk witnessProjectRoot emptyPlatform).2 = none
    ∧ (processSdk witnessProjectRoot emptyPlatform).1.interactiveCanvasReady = true := by
  have happ := webhooks_missing_nonfatal witnessProjectRoot witnessEmptyCustom emptyPlatform
    ⟨some "T1", some "P1", witnessLogoFile⟩ ⟨[], []⟩ ⟨[], []⟩ (.notFound "webhooks")
    (by rfl) (by rfl) (by rfl) (by rfl) (by rfl)
  exact ⟨by rfl, by rfl, happ.1, happ.2.1, happ.2.2.2⟩

/-- C6: a settings document with `projectId = "P1"`,
`displayName = "T1"`, and `smallLogoImage = "$resources.images.logo"`
resolves to the header with title `"T1"`, project id `"P1"`, and the
logo file obtained by stripping the `$resources.images.` prefix and
resolving `logo.png` under `resources/images` of the project root; the
resolved header is what `processSdk` publishes. -/
theorem header_round_trip (root resDir imgDir : Dir) (p0 : Platform) (fd logoFd : FileData)
    (hset : resolveSettingsFile root = .ok fd)
    (hfields : fd.yaml.asSettings
      = ⟨some "P1", some ⟨some "T1", some "$resources.images.logo"⟩⟩)
    (hres : getDirectoryHandle root "resources" = .ok resDir)
    (himg : getDirectoryHandle resDir "images" = .ok imgDir)
    (hlogo : getFileHandle imgDir "logo.png" = .ok logoFd) :
    resolveHeader root = .ok ⟨some "T1", some "P1", logoFd⟩
    ∧ (processSdk root p0).1.interactiveCanvasHeader = some ⟨some "T1", some "P1", logoFd⟩ := by
  have hstrip : replaceFirstOcc "$resources.images.logo" "$resources.images." "" = "logo" := by
    decide
  have hal : getActionLogo root fd.yaml.asSettings = .ok logoFd := by
    rw [hfields]
    simp [getActionLogo, hstrip, hres, himg, hlogo, Bind.bind, Except.bind]
  have hh : resolveHeader root = .ok ⟨some "T1", some "P1", logoFd⟩ := by
    unfold resolveHeader
    rw [hset]
    simp [Bind.bind, Except.bind, hfields, pure, Except.pure]
    rw [← hfields, hal]
  refine ⟨hh, ?_⟩
  unfold processSdk
  rw [hh]
  cases hcustom : getDirectoryHandle root "custom" with
  | error e => simp [hcustom]
  | ok cd =>
    cases hg : processSdkGlobal cd with
    | error e => simp [hcustom, hg]
    | ok g =>
      cases hs : processSdkCustom cd with
      | error e => simp [hcustom, hg, hs, pushResult]
      | ok s => simp [hcustom, hg, hs, pushResult]

/-- Witness for C6: the shared witness project root resolves to the
expected header. -/
theorem header_round_trip_witness :
    resolveSettingsFile witnessProjectRoot = .ok witnessSettingsFile
    ∧ witnessSettingsFile.yaml.asSettings
      = ⟨some "P1", some ⟨some "T1", some "$resources.images.logo"⟩⟩
    ∧ resolveHeader witnessProjectRoot = .ok ⟨some "T1", some "P1", witnessLogoFile⟩
    ∧ (processSdk witnessProjectRoot emptyPlatform).1.interactiveCanvasHeader
      = some ⟨some "T1", some "P1", witnessLogoFile⟩ := by
  have happ := header_round_trip witnessProjectRoot
    [DirEntry.mk "images" (.dir [DirEntry.mk "logo.png" (.file witnessLogoFile)])]
    [DirEntry.mk "logo.png" (.file witnessLogoFile)]
    emptyPlatform witnessSettingsFile witnessLogoFile
    (by rfl) (by rfl) (by rfl) (by rfl) (by rfl)
  exact ⟨by rfl, by rfl, happ.1, happ.2⟩

set_option maxRecDepth 10000

/-- C7: processing the sample SDK tree yields the marks
`["globalyaml", "globalyaml2", "sceneyaml", "code"]` in that order and
the header `{title: "Snow Pal sample", projectId: "<PROJECT_ID>"}`, the
traversal succeeds, and the trace of observable mutations is exactly the
ready-flag reset, the header publication, the three accumulation steps,
a single setting of the ready flag to true, and the completion dispatch —
so the ready flag is set to true exactly once, only after all
accumulation steps and never earlier. -/
theorem sample_project_end_to_end :
    (processSdk sampleRoot emptyPlatform).1.interactiveCanvasData.marks
      = ["globalyaml", "globalyaml2", "sceneyaml", "code"]
    ∧ (processSdk sampleRoot emptyPlatform).1.interactiveCanvasHeader.map ProjectHeader.title
      = some (some "Snow Pal sample")
    ∧ (processSdk sampleRoot emptyPlatform).1.interactiveCanvasHeader.map ProjectHeader.projectId
      = some (some "<PROJECT_ID>")
    ∧ (processSdk sampleRoot emptyPlatform).2 = none
    ∧ (processSdk sampleRoot emptyPlatform).1.interactiveCanvasReady = true
    ∧ ((processSdk sampleRoot emptyPlatform).1.trace.map TraceEv.tag)
      = [.setReadyFalse, .setHeader, .accumGlobal, .accumScenes, .accumWebhooks,
         .setReadyTrue, .dispatchProcessSdk]
    ∧ (((processSdk sampleRoot emptyPlatform).1.trace.map TraceEv.tag).count .setReadyTrue) = 1 := by
  refine ⟨?_, ?_, ?_, ?_, ?_, ?_, ?_⟩ <;> decide

/-- C8: the history log is append-only in call order — two text queries
followed by a state update, starting from the fresh page state, store a
log of length three whose entries keep call order with kinds
`[text, text, state]` (the specification's `text-query` / `state-update`)
and labels `[a, b, JSON.stringify(v)]`; every dispatched emission is a
prefix-extension snapshot, and the presentation reversal acts on the
snapshot, leaving the stored order unchanged. -/
theorem history_append_only (a b : String) (v : JsValue) (t1 t2 t3 : Nat) :
    (setCanvasState (sendTextQuery (sendTextQuery initialPageState a t1) b t2) v t3).webhookHistory
      = [⟨a, t1, .text⟩, ⟨b, t2, .text⟩, ⟨v.stringify, t3, .state⟩]
    ∧ (setCanvasState (sendTextQuery (sendTextQuery initialPageState a t1) b t2) v t3).historyDispatches
      = [[⟨a, t1, .text⟩], [⟨a, t1, .text⟩, ⟨b, t2, .text⟩],
         [⟨a, t1, .text⟩, ⟨b, t2, .text⟩, ⟨v.stringify, t3, .state⟩]]
    ∧ displaySorted [⟨a, t1, .text⟩, ⟨b, t2, .text⟩, ⟨v.stringify, t3, .state⟩]
      = [⟨v.stringify, t3, .state⟩, ⟨b, t2, .text⟩, ⟨a, t1, .text⟩] := by
  refine ⟨?_, ?_, ?_⟩ <;> simp [sendTextQuery, setCanvasState, initialPageState, displaySorted]

/-- C9: on a bridge session marked remote, `injectHeaderDom` and
`loadSdk` throw `Function unavailable on remote targets` before sending
any message: the returned state is the input state unchanged (no
broadcast, no style insertion, no set or subject mutation). -/
theorem remote_target_guard (s : BridgeState) (page : PageEnv)
    (h : s.isRemoteTarget = true) :
    injectHeaderDom s = (s, some "Function unavailable on remote targets")
    ∧ loadSdk s page = (s, some "Function unavailable on remote targets") := by
  constructor
  · simp [injectHeaderDom, h]
  · simp [loadSdk, h]

/-- Witness for C9 at a concrete remote-marked bridge state. -/
theorem remote_target_guard_witness :
    (BridgeState.mk true [] [] [] [] [] [] []).isRemoteTarget = true
    ∧ injectHeaderDom (BridgeState.mk true [] [] [] [] [] [] [])
      = (BridgeState.mk true [] [] [] [] [] [] [],
         some "Function unavailable on remote targets")
    ∧ loadSdk (BridgeState.mk true [] [] [] [] [] [] []) (PageEnv.mk false ⟨[], []⟩)
      = (BridgeState.mk true [] [] [] [] [] [] [],
         some "Function unavailable on remote targets") := by
  have happ := remote_target_guard (BridgeState.mk true [] [] [] [] [] [] [])
    (PageEnv.mk false ⟨[], []⟩) (by rfl)
  exact ⟨by rfl, happ.1, happ.2⟩

/-- C10: the published suggestion lists are duplicate-free — starting
from a bridge state whose sets hold no duplicates, sending the same
payload (mark) twice is idempotent with respect to the published list:
the emission after the second send equals the emission after the first,
and it contains exactly one occurrence of the sent string. -/
theorem suggestion_sets_duplicate_free (s : BridgeState) (x y : String)
    (hp : s.payloadsSet.Nodup) (hm : s.marksSet.Nodup) :
    ((sendOnUpdate (sendOnUpdate s x) x).payloadPublished.getLast?
        = some (setAdd s.payloadsSet x)
      ∧ (sendOnUpdate s x).payloadPublished.getLast? = some (setAdd s.payloadsSet x)
      ∧ (setAdd s.payloadsSet x).count x = 1)
    ∧ ((sendOnTtsMark (sendOnTtsMark s y) y).marksPublished.getLast?
        = some (setAdd s.marksSet y)
      ∧ (sendOnTtsMark s y).marksPublished.getLast? = some (setAdd s.marksSet y)
      ∧ (setAdd s.marksSet y).count y = 1) := by
  constructor
  · refine ⟨?_, ?_, ?_⟩
    · rw [sendOnUpdate_payloadPublished, sendOnUpdate_payloadsSet, setAdd_idem]
      exact List.getLast?_concat _
    · rw [sendOnUpdate_payloadPublished]
      exact List.getLast?_concat _
    · exact List.count_eq_one_of_mem (setAdd_nodup _ _ hp) (setAdd_mem _ _)
  · refine ⟨?_, ?_, ?_⟩
    · rw [sendOnTtsMark_marksPublished, sendOnTtsMark_marksSet, setAdd_idem]
      exact List.getLast?_concat _
    · rw [sendOnTtsMark_marksPublished]
      exact List.getLast?_concat _
    · exact List.count_eq_one_of_mem (setAdd_nodup _ _ hm) (setAdd_mem _ _)

/-- Witness for C10 at the fresh local bridge state, sending the payload
`{"a":1}` and the mark `m` twice each. -/
theorem suggestion_sets_duplicate_free_witness :
    ([] : List String).Nodup
    ∧ (sendOnUpdate (sendOnUpdate (BridgeState.mk false [] [] [] [] [] [] []) "payload1")
        "payload1").payloadPublished.getLast? = some (setAdd [] "payload1")
    ∧ (setAdd [] "payload1").count "payload1" = 1
    ∧ (sendOnTtsMark (sendOnTtsMark (BridgeState.mk false [] [] [] [] [] [] []) "m")
        "m").marksPublished.getLast? = some (setAdd [] "m")
    ∧ (setAdd [] "m").count "m" = 1 := by
  have happ := suggestion_sets_duplicate_free (BridgeState.mk false [] [] [] [] [] [] [])
    "payload1" "m" (by simp) (by simp)
  exact ⟨by simp, happ.1.1, happ.1.2.2, happ.2.1, happ.2.2.2⟩
